import Mathlib

/-!
Verification of the tomato expert system's certainty-factor (CF) algebra and
session controller, shallowly embedded from the Python sources
(`tomato_expert_system/utils/cf_utils.py`, `utils/data_loader.py`,
`run_system.py`).  Python floats are modelled as rationals (`ℚ`): every
numeric example in the sources is exactly representable and the CF formulas
use only field operations and comparisons.
-/

namespace TomatoES

/-! ### cf_utils.py -/

/-- `_clamp_cf` from cf_utils.py: `max(-1.0, min(1.0, cf))`. -/
def clampCf (cf : ℚ) : ℚ := max (-1) (min 1 cf)

/-- The branch dispatch in the body of `cf_combine` (cf_utils.py lines
51-63), on the already-clamped inputs: both nonnegative, both negative, or
mixed signs with the zero-denominator guard. -/
def cf_combine_raw (c1 c2 : ℚ) : ℚ :=
  if 0 ≤ c1 ∧ 0 ≤ c2 then c1 + c2 * (1 - c1)
  else if c1 < 0 ∧ c2 < 0 then c1 + c2 * (1 + c1)
  else if 1 - min |c1| |c2| = 0 then 0
  else (c1 + c2) / (1 - min |c1| |c2|)

/-- `cf_combine` from cf_utils.py: MYCIN combination.  Inputs are clamped,
then the sign-based branch of the source is taken (`cf_combine_raw`), then
the result is clamped. -/
def cf_combine (cf1 cf2 : ℚ) : ℚ :=
  clampCf (cf_combine_raw (clampCf cf1) (clampCf cf2))

/-- `cf_combine_multiple` from cf_utils.py: left fold of `cf_combine`. -/
def cf_combine_multiple (cfs : List ℚ) : ℚ :=
  match cfs with
  | [] => 0
  | c :: rest => rest.foldl cf_combine c

/-- `cf_adjust` from cf_utils.py: `clamp(base_cf * impact_factor)`. -/
def cf_adjust (base_cf impact_factor : ℚ) : ℚ :=
  clampCf (base_cf * impact_factor)

/-- The running-maximum step of Python `max(..., key=lambda x: x[1])`: the
current best is replaced only on a strictly larger key. -/
def bestStep (best y : String × ℚ) : String × ℚ :=
  if best.2 < y.2 then y else best

/-- `cf_select_highest` from cf_utils.py: Python
`max(conclusions, key=lambda x: x[1])` — `None` on an empty list, otherwise
a running maximum that replaces the current best only on a strictly larger
key, so the first-seen maximal element wins. -/
def cf_select_highest (conclusions : List (String × ℚ)) : Option (String × ℚ) :=
  match conclusions with
  | [] => none
  | x :: xs => some (xs.foldl bestStep x)

/-- The descending-by-CF relation used by `cf_rank_conclusions`
(`sorted(..., key=lambda x: x[1], reverse=True)`). -/
def cfDesc (p q : String × ℚ) : Prop := q.2 ≤ p.2

instance : DecidableRel cfDesc :=
  fun p q => inferInstanceAs (Decidable (q.2 ≤ p.2))

instance : IsTotal (String × ℚ) cfDesc :=
  ⟨fun p q => le_total q.2 p.2⟩

instance : IsTrans (String × ℚ) cfDesc :=
  ⟨fun _ _ _ h1 h2 => le_trans h2 h1⟩

/-- `cf_rank_conclusions` from cf_utils.py: Python's `sorted` with
`key=lambda x: x[1], reverse=True` is the stable sort by CF descending;
embedded as the stable insertion sort by `cfDesc`. -/
def cf_rank_conclusions (conclusions : List (String × ℚ)) : List (String × ℚ) :=
  List.insertionSort cfDesc conclusions

/-- `CF_THRESHOLD_VERY_HIGH` from cf_utils.py. -/
def CF_THRESHOLD_VERY_HIGH : ℚ := 0.8

/-- `CF_THRESHOLD_HIGH` from cf_utils.py. -/
def CF_THRESHOLD_HIGH : ℚ := 0.6

/-- `CF_THRESHOLD_MODERATE` from cf_utils.py. -/
def CF_THRESHOLD_MODERATE : ℚ := 0.4

/-- `CF_THRESHOLD_LOW` from cf_utils.py. -/
def CF_THRESHOLD_LOW : ℚ := 0.2

/-- `CF_THRESHOLD_MINIMUM` from cf_utils.py. -/
def CF_THRESHOLD_MINIMUM : ℚ := 0.1

/-- `cf_meets_threshold` from cf_utils.py. -/
def cf_meets_threshold (cf : ℚ) (threshold : ℚ) : Bool :=
  threshold ≤ cf

/-- `cf_to_confidence_level` from cf_utils.py: negative CFs are checked
first and mapped to `"Negative (against)"`; the nonnegative bands follow the
module-level threshold constants. -/
def cf_to_confidence_level (cf : ℚ) : String :=
  if cf < 0 then "Negative (against)"
  else if CF_THRESHOLD_VERY_HIGH ≤ cf then "Very High"
  else if CF_THRESHOLD_HIGH ≤ cf then "High"
  else if CF_THRESHOLD_MODERATE ≤ cf then "Moderate"
  else if CF_THRESHOLD_LOW ≤ cf then "Low"
  else "Very Low"

/-! #### Basic clamp lemmas -/

theorem clampCf_le_one (x : ℚ) : clampCf x ≤ 1 := by
  unfold clampCf
  exact max_le (by norm_num) (min_le_left _ _)

theorem neg_one_le_clampCf (x : ℚ) : -1 ≤ clampCf x := by
  unfold clampCf
  exact le_max_left _ _

theorem clampCf_of_mem (x : ℚ) (h1 : -1 ≤ x) (h2 : x ≤ 1) : clampCf x = x := by
  unfold clampCf
  rw [min_eq_right h2, max_eq_right h1]

theorem clampCf_eq_one (x : ℚ) (h : 1 ≤ x) : clampCf x = 1 := by
  unfold clampCf
  rw [min_eq_left h, max_eq_right (by norm_num : (-1 : ℚ) ≤ 1)]

theorem clampCf_eq_neg_one (x : ℚ) (h : x ≤ -1) : clampCf x = -1 := by
  unfold clampCf
  rw [min_eq_right (le_trans h (by norm_num)), max_eq_left h]

theorem clampCf_zero : clampCf 0 = 0 :=
  clampCf_of_mem 0 (by norm_num) (by norm_num)

theorem cf_combine_raw_comm (c1 c2 : ℚ) :
    cf_combine_raw c1 c2 = cf_combine_raw c2 c1 := by
  unfold cf_combine_raw
  rcases le_or_lt 0 c1 with h1 | h1 <;> rcases le_or_lt 0 c2 with h2 | h2
  · rw [if_pos ⟨h1, h2⟩, if_pos ⟨h2, h1⟩]; ring
  · have n1 : ¬(0 ≤ c1 ∧ 0 ≤ c2) := fun h => absurd h.2 (not_le.mpr h2)
    have n1' : ¬(0 ≤ c2 ∧ 0 ≤ c1) := fun h => absurd h.1 (not_le.mpr h2)
    have n2 : ¬(c1 < 0 ∧ c2 < 0) := fun h => absurd h.1 (not_lt.mpr h1)
    have n2' : ¬(c2 < 0 ∧ c1 < 0) := fun h => absurd h.2 (not_lt.mpr h1)
    rw [if_neg n1, if_neg n2, if_neg n1', if_neg n2', min_comm |c2| |c1|,
      add_comm c2 c1]
  · have n1 : ¬(0 ≤ c1 ∧ 0 ≤ c2) := fun h => absurd h.1 (not_le.mpr h1)
    have n1' : ¬(0 ≤ c2 ∧ 0 ≤ c1) := fun h => absurd h.2 (not_le.mpr h1)
    have n2 : ¬(c1 < 0 ∧ c2 < 0) := fun h => absurd h.2 (not_lt.mpr h2)
    have n2' : ¬(c2 < 0 ∧ c1 < 0) := fun h => absurd h.1 (not_lt.mpr h2)
    rw [if_neg n1, if_neg n2, if_neg n1', if_neg n2', min_comm |c2| |c1|,
      add_comm c2 c1]
  · have n1 : ¬(0 ≤ c1 ∧ 0 ≤ c2) := fun h => absurd h.1 (not_le.mpr h1)
    have n1' : ¬(0 ≤ c2 ∧ 0 ≤ c1) := fun h => absurd h.2 (not_le.mpr h1)
    rw [if_neg n1, if_pos ⟨h1, h2⟩, if_neg n1', if_pos ⟨h2, h1⟩]; ring

/-- C10: for all inputs `a` and `b`, `cf_combine a b = cf_combine b a`: the
MYCIN combination, including input clamping and result clamping, is
commutative. -/
theorem cf_combine_comm (a b : ℚ) : cf_combine a b = cf_combine b a := by
  unfold cf_combine
  rw [cf_combine_raw_comm]

/-- C1: `cf_combine` clamps both inputs, then returns the MYCIN combination
of the clamped values — `a + b*(1-a)` when both are nonnegative,
`a + b*(1+a)` when both are negative, otherwise
`(a+b)/(1 - min(|a|,|b|))` with result `0` on a zero denominator — and the
result is clamped to `[-1, 1]`; in particular
`cf_combine 0.8 0.6 = 0.92`, `cf_combine (-0.5) (-0.3) = -0.65` and
`cf_combine 0.7 (-0.4) = 0.5`. -/
theorem cf_combine_mycin_cases (a b : ℚ) :
    (0 ≤ clampCf a → 0 ≤ clampCf b →
      cf_combine a b = clampCf (clampCf a + clampCf b * (1 - clampCf a))) ∧
    (clampCf a < 0 → clampCf b < 0 →
      cf_combine a b = clampCf (clampCf a + clampCf b * (1 + clampCf a))) ∧
    (¬(0 ≤ clampCf a ∧ 0 ≤ clampCf b) → ¬(clampCf a < 0 ∧ clampCf b < 0) →
      cf_combine a b =
        clampCf (if 1 - min |clampCf a| |clampCf b| = 0 then 0
          else (clampCf a + clampCf b) / (1 - min |clampCf a| |clampCf b|))) ∧
    (-1 ≤ cf_combine a b ∧ cf_combine a b ≤ 1) ∧
    cf_combine 0.8 0.6 = 0.92 ∧ cf_combine (-0.5) (-0.3) = -0.65 ∧
    cf_combine 0.7 (-0.4) = 0.5 := by
  refine ⟨?_, ?_, ?_, ⟨neg_one_le_clampCf _, clampCf_le_one _⟩, ?_, ?_, ?_⟩
  · intro h1 h2
    unfold cf_combine cf_combine_raw
    rw [if_pos ⟨h1, h2⟩]
  · intro h1 h2
    unfold cf_combine cf_combine_raw
    rw [if_neg (fun h => absurd h.1 (not_le.mpr h1)), if_pos ⟨h1, h2⟩]
  · intro h1 h2
    unfold cf_combine cf_combine_raw
    rw [if_neg h1, if_neg h2]
  · norm_num [cf_combine, cf_combine_raw, clampCf, min_def, max_def]
  · norm_num [cf_combine, cf_combine_raw, clampCf, min_def, max_def]
  · norm_num [cf_combine, cf_combine_raw, clampCf, min_def, max_def, abs]

/-- Witness for C1: the both-nonnegative case applied at `(0.8, 0.6)`. -/
theorem cf_combine_mycin_cases_witness :
    cf_combine 0.8 0.6 =
      clampCf (clampCf 0.8 + clampCf 0.6 * (1 - clampCf 0.8)) :=
  (cf_combine_mycin_cases 0.8 0.6).1
    (by norm_num [clampCf]) (by norm_num [clampCf])

/-- C8: `0` is a right identity of `cf_combine` on valid certainty factors:
for `x ∈ [-1, 1]`, `cf_combine x 0 = x`; for negative `x` the evaluation
goes through the mixed-sign branch with denominator `1`. -/
theorem cf_combine_zero_right_identity (x : ℚ) (h1 : -1 ≤ x) (h2 : x ≤ 1) :
    cf_combine x 0 = x := by
  unfold cf_combine
  rw [clampCf_zero, clampCf_of_mem x h1 h2]
  rcases le_or_lt 0 x with hx | hx
  · unfold cf_combine_raw
    rw [if_pos ⟨hx, le_refl 0⟩]
    rw [show x + 0 * (1 - x) = x by ring]
    exact clampCf_of_mem x h1 h2
  · unfold cf_combine_raw
    rw [if_neg (fun h => absurd h.1 (not_le.mpr hx)),
      if_neg (fun h => absurd h.2 (lt_irrefl 0))]
    rw [abs_zero, min_eq_right (abs_nonneg x)]
    rw [if_neg (by norm_num : ¬(1 - 0 : ℚ) = 0)]
    rw [show (x + 0) / (1 - 0) = x by ring]
    exact clampCf_of_mem x h1 h2

/-- Witness for C8: applied at `x = -0.5`, which exercises the mixed-sign
branch. -/
theorem cf_combine_zero_right_identity_witness :
    cf_combine (-0.5) 0 = -0.5 :=
  cf_combine_zero_right_identity (-0.5) (by norm_num) (by norm_num)

/-- C4: `cf_adjust base factor` is `base * factor` clamped to `[-1, 1]`:
the stated examples hold, `1.0` is a right identity on `[-1, 1]`, the
result always lies in `[-1, 1]`, and out-of-range products are clamped to
`±1`. -/
theorem cf_adjust_spec :
    cf_adjust 0.8 1.2 = 0.96 ∧ cf_adjust 0.8 0.7 = 0.56 ∧
    (∀ b f : ℚ, cf_adjust b f = max (-1) (min 1 (b * f))) ∧
    (∀ cf : ℚ, -1 ≤ cf → cf ≤ 1 → cf_adjust cf 1 = cf) ∧
    (∀ b f : ℚ, -1 ≤ cf_adjust b f ∧ cf_adjust b f ≤ 1) ∧
    (∀ b f : ℚ, 1 ≤ b * f → cf_adjust b f = 1) ∧
    (∀ b f : ℚ, b * f ≤ -1 → cf_adjust b f = -1) := by
  refine ⟨?_, ?_, fun b f => rfl, fun cf hl hr => ?_, fun b f => ?_,
    fun b f h => ?_, fun b f h => ?_⟩
  · norm_num [cf_adjust, clampCf, min_def, max_def]
  · norm_num [cf_adjust, clampCf, min_def, max_def]
  · unfold cf_adjust
    rw [mul_one]
    exact clampCf_of_mem cf hl hr
  · exact ⟨neg_one_le_clampCf _, clampCf_le_one _⟩
  · exact clampCf_eq_one _ h
  · exact clampCf_eq_neg_one _ h

/-- Witness for C4: the identity-factor case applied at `cf = 0.5`. -/
theorem cf_adjust_spec_witness : cf_adjust 0.5 1 = 0.5 :=
  cf_adjust_spec.2.2.2.1 0.5 (by norm_num) (by norm_num)

/-- Counterexample for C7: the source maps negative CFs to the string
`"Negative (against)"`, not `"Negative"` as the claim states. -/
theorem cf_to_confidence_level_negative_label_cex :
    cf_to_confidence_level (-0.3) ≠ "Negative" ∧
    cf_to_confidence_level (-0.3) = "Negative (against)" := by
  constructor
  · have h : cf_to_confidence_level (-0.3) = "Negative (against)" := by
      norm_num [cf_to_confidence_level]
    rw [h]
    decide
  · norm_num [cf_to_confidence_level]

/-- C7 (amended): `cf_to_confidence_level` maps `cf ≥ 0.8` to
`"Very High"`, `[0.6, 0.8)` to `"High"`, `[0.4, 0.6)` to `"Moderate"`,
`[0.2, 0.4)` to `"Low"`, `[0, 0.2)` to `"Very Low"` and `cf < 0` to
`"Negative (against)"`, with band boundaries the fixed module-level
threshold constants (the function takes no tuning parameter). -/
theorem cf_to_confidence_level_bands (cf : ℚ) :
    (CF_THRESHOLD_VERY_HIGH ≤ cf → cf_to_confidence_level cf = "Very High") ∧
    (CF_THRESHOLD_HIGH ≤ cf → cf < CF_THRESHOLD_VERY_HIGH →
      cf_to_confidence_level cf = "High") ∧
    (CF_THRESHOLD_MODERATE ≤ cf → cf < CF_THRESHOLD_HIGH →
      cf_to_confidence_level cf = "Moderate") ∧
    (CF_THRESHOLD_LOW ≤ cf → cf < CF_THRESHOLD_MODERATE →
      cf_to_confidence_level cf = "Low") ∧
    (0 ≤ cf → cf < CF_THRESHOLD_LOW → cf_to_confidence_level cf = "Very Low") ∧
    (cf < 0 → cf_to_confidence_level cf = "Negative (against)") := by
  unfold cf_to_confidence_level CF_THRESHOLD_VERY_HIGH CF_THRESHOLD_HIGH
    CF_THRESHOLD_MODERATE CF_THRESHOLD_LOW
  refine ⟨fun h => ?_, fun h hu => ?_, fun h hu => ?_, fun h hu => ?_,
    fun h hu => ?_, fun h => ?_⟩
  · rw [if_neg (not_lt.mpr (le_trans (by norm_num) h)), if_pos h]
  · rw [if_neg (not_lt.mpr (le_trans (by norm_num) h)),
      if_neg (not_le.mpr hu), if_pos h]
  · rw [if_neg (not_lt.mpr (le_trans (by norm_num) h)),
      if_neg (not_le.mpr (lt_of_lt_of_le hu (by norm_num))),
      if_neg (not_le.mpr hu), if_pos h]
  · rw [if_neg (not_lt.mpr (le_trans (by norm_num) h)),
      if_neg (not_le.mpr (lt_of_lt_of_le hu (by norm_num))),
      if_neg (not_le.mpr (lt_of_lt_of_le hu (by norm_num))),
      if_neg (not_le.mpr hu), if_pos h]
  · rw [if_neg (not_lt.mpr h),
      if_neg (not_le.mpr (lt_of_lt_of_le hu (by norm_num))),
      if_neg (not_le.mpr (lt_of_lt_of_le hu (by norm_num))),
      if_neg (not_le.mpr (lt_of_lt_of_le hu (by norm_num))),
      if_neg (not_le.mpr hu)]
  · rw [if_pos h]

/-- Witness for C7: the `"High"` band applied at `cf = 0.7`. -/
theorem cf_to_confidence_level_bands_witness :
    cf_to_confidence_level 0.7 = "High" :=
  (cf_to_confidence_level_bands 0.7).2.1
    (by norm_num [CF_THRESHOLD_HIGH]) (by norm_num [CF_THRESHOLD_VERY_HIGH])

/-! #### The running maximum of `cf_select_highest` -/

theorem bestStep_le_left (x z : String × ℚ) : x.2 ≤ (bestStep x z).2 := by
  unfold bestStep
  by_cases h : x.2 < z.2
  · rw [if_pos h]; exact le_of_lt h
  · rw [if_neg h]

theorem bestStep_le_right (x z : String × ℚ) : z.2 ≤ (bestStep x z).2 := by
  unfold bestStep
  by_cases h : x.2 < z.2
  · rw [if_pos h]
  · rw [if_neg h]; exact not_lt.mp h

theorem foldl_bestStep_le :
    ∀ (xs : List (String × ℚ)) (x : String × ℚ),
      ∀ y ∈ x :: xs, y.2 ≤ (xs.foldl bestStep x).2
  | [], x => by
      intro y hy
      rcases List.mem_cons.mp hy with rfl | hy'
      · exact le_refl _
      · exact absurd hy' (List.not_mem_nil y)
  | z :: zs, x => by
      intro y hy
      rw [List.foldl_cons]
      rcases List.mem_cons.mp hy with rfl | hy'
      · exact le_trans (bestStep_le_left y z)
          (foldl_bestStep_le zs (bestStep y z) _ (List.mem_cons_self _ _))
      · rcases List.mem_cons.mp hy' with rfl | hy''
        · exact le_trans (bestStep_le_right x y)
            (foldl_bestStep_le zs (bestStep x y) _ (List.mem_cons_self _ _))
        · exact foldl_bestStep_le zs (bestStep x z) y
            (List.mem_cons.mpr (Or.inr hy''))

theorem foldl_bestStep_split :
    ∀ (xs : List (String × ℚ)) (x : String × ℚ),
      ∃ l1 l2, x :: xs = l1 ++ (xs.foldl bestStep x) :: l2 ∧
        ∀ y ∈ l1, y.2 < (xs.foldl bestStep x).2
  | [], x => ⟨[], [], rfl, fun y hy => absurd hy (List.not_mem_nil y)⟩
  | z :: zs, x => by
      rw [List.foldl_cons]
      by_cases h : x.2 < z.2
      · obtain ⟨l1, l2, heq, hlt⟩ := foldl_bestStep_split zs z
        have hacc : bestStep x z = z := if_pos h
        rw [hacc]
        refine ⟨x :: l1, l2, ?_, ?_⟩
        · rw [List.cons_append, ← heq]
        · intro y hy
          rcases List.mem_cons.mp hy with rfl | hy'
          · exact lt_of_lt_of_le h
              (foldl_bestStep_le zs z z (List.mem_cons_self _ _))
          · exact hlt y hy'
      · obtain ⟨l1, l2, heq, hlt⟩ := foldl_bestStep_split zs x
        have hacc : bestStep x z = x := if_neg h
        rw [hacc]
        cases l1 with
        | nil =>
            have hx : x = zs.foldl bestStep x := (List.cons.injEq _ _ _ _).mp heq |>.1
            refine ⟨[], z :: zs, ?_, fun y hy => absurd hy (List.not_mem_nil y)⟩
            rw [List.nil_append, ← hx]
        | cons w l1' =>
            have hw : x = w ∧ zs = l1' ++ (zs.foldl bestStep x) :: l2 := by
              rw [List.cons_append] at heq
              exact (List.cons.injEq _ _ _ _).mp heq
            have hxl : x.2 < (zs.foldl bestStep x).2 := by
              have := hlt w (List.mem_cons_self _ _)
              rw [← hw.1] at this
              exact this
            refine ⟨x :: z :: l1', l2, ?_, ?_⟩
            · rw [List.cons_append, List.cons_append, ← hw.2]
            · intro y hy
              rcases List.mem_cons.mp hy with rfl | hy'
              · exact hxl
              · rcases List.mem_cons.mp hy' with rfl | hy''
                · exact lt_of_le_of_lt (not_lt.mp h) hxl
                · have : y ∈ w :: l1' := List.mem_cons.mpr (Or.inr hy'')
                  exact hlt y this

/-- C5: `cf_select_highest` returns `none` exactly on the empty list, and on
a non-empty list returns an element with maximal CF, the first-seen one when
several share the maximal CF (everything strictly before it in the input has
a strictly smaller CF). -/
theorem cf_select_highest_spec :
    (∀ l : List (String × ℚ), cf_select_highest l = none ↔ l = []) ∧
    (∀ (l : List (String × ℚ)) (r : String × ℚ), cf_select_highest l = some r →
      (∀ y ∈ l, y.2 ≤ r.2) ∧
      ∃ l1 l2, l = l1 ++ r :: l2 ∧ ∀ y ∈ l1, y.2 < r.2) := by
  constructor
  · intro l
    cases l with
    | nil => simp [cf_select_highest]
    | cons x xs => simp [cf_select_highest]
  · intro l r hr
    cases l with
    | nil => exact absurd hr (by simp [cf_select_highest])
    | cons x xs =>
        have hr' : xs.foldl bestStep x = r := Option.some.inj hr
        constructor
        · intro y hy
          rw [← hr']
          exact foldl_bestStep_le xs x y hy
        · obtain ⟨l1, l2, heq, hlt⟩ := foldl_bestStep_split xs x
          rw [hr'] at heq hlt
          exact ⟨l1, l2, heq, hlt⟩

/-- Witness for C5: applied to `[("a", 1), ("b", 2)]`, whose selected
maximum is `("b", 2)`; the first conjunct instantiated at `("a", 1)`. -/
theorem cf_select_highest_spec_witness : (1 : ℚ) ≤ 2 :=
  (cf_select_highest_spec.2 [("a", 1), ("b", 2)] ("b", 2)
      (by norm_num [cf_select_highest, bestStep])).1
    ("a", 1) (by simp)

/-! #### Stability of `cf_rank_conclusions` -/

theorem filter_orderedInsert (c : ℚ) (x : String × ℚ) :
    ∀ l : List (String × ℚ),
      (List.orderedInsert cfDesc x l).filter (fun p => p.2 = c) =
        if x.2 = c then x :: l.filter (fun p => p.2 = c)
        else l.filter (fun p => p.2 = c)
  | [] => by
      by_cases hx : x.2 = c <;> simp [List.orderedInsert, hx]
  | y :: l => by
      by_cases hr : cfDesc x y
      · rw [List.orderedInsert_of_le cfDesc l hr]
        by_cases hx : x.2 = c <;> simp [List.filter_cons, hx]
      · have hyx : x.2 < y.2 := not_le.mp hr
        simp only [List.orderedInsert, if_neg hr, List.filter_cons]
        by_cases hy : y.2 = c
        · have hx : ¬x.2 = c := fun hc => absurd (hc.trans hy.symm) (ne_of_lt hyx)
          rw [filter_orderedInsert c x l]
          simp [hx, hy]
        · by_cases hx : x.2 = c <;>
            simp [hx, hy, filter_orderedInsert c x l]

theorem filter_rank (c : ℚ) :
    ∀ l : List (String × ℚ),
      (cf_rank_conclusions l).filter (fun p => p.2 = c) =
        l.filter (fun p => p.2 = c)
  | [] => rfl
  | x :: l => by
      have ih : (List.insertionSort cfDesc l).filter (fun p => p.2 = c) =
          l.filter (fun p => p.2 = c) := filter_rank c l
      show (List.orderedInsert cfDesc x
        (List.insertionSort cfDesc l)).filter (fun p => p.2 = c) = _
      rw [filter_orderedInsert c x (List.insertionSort cfDesc l), ih]
      by_cases hx : x.2 = c <;> simp [hx, List.filter_cons]

/-- C6: `cf_rank_conclusions` returns a permutation of its input that is
sorted by CF descending and stable — for every CF value the elements
carrying that value keep their first-seen order — and ranks
`[(A,0.6),(B,0.9),(C,0.7)]` as `[(B,0.9),(C,0.7),(A,0.6)]`. -/
theorem cf_rank_conclusions_spec :
    (∀ l : List (String × ℚ), List.Perm (cf_rank_conclusions l) l) ∧
    (∀ l : List (String × ℚ),
      List.Sorted (fun p q : String × ℚ => q.2 ≤ p.2) (cf_rank_conclusions l)) ∧
    (∀ (l : List (String × ℚ)) (c : ℚ),
      (cf_rank_conclusions l).filter (fun p => p.2 = c) =
        l.filter (fun p => p.2 = c)) ∧
    cf_rank_conclusions [("A", 0.6), ("B", 0.9), ("C", 0.7)] =
      [("B", 0.9), ("C", 0.7), ("A", 0.6)] := by
  refine ⟨fun l => List.perm_insertionSort cfDesc l,
    fun l => ?_, fun l c => filter_rank c l, ?_⟩
  · have h := List.sorted_insertionSort cfDesc l
    exact h
  · norm_num [cf_rank_conclusions, cfDesc]

/-! ### data_loader.py -/

/-- The "Leaves & Stems" symptom list from `SYMPTOM_CATEGORIES`. -/
def LEAVES_STEMS_SYMPTOMS : List String :=
  ["brown-leaf-spots", "yellow-halos", "bulls-eye-pattern",
   "lower-leaves-first", "small-gray-tan-spots", "dark-spot-margins",
   "water-soaked-blotches", "rapid-leaf-browning", "lower-leaf-yellowing",
   "stem-discoloration", "leaf-mottling", "leaf-distortion",
   "small-dark-spots", "leaf-yellowing", "spots-merging", "leaf-drop",
   "young-leaf-tip-necrosis", "dark-green-or-purplish-leaves",
   "leaf-edge-scorching", "weak-stems", "thin-stems"]

/-- The "Blossoms & Fruits" symptom list from `SYMPTOM_CATEGORIES`. -/
def BLOSSOMS_FRUITS_SYMPTOMS : List String :=
  ["dark-fruit-lesions", "oily-fruit-lesions", "blossom-end-rot",
   "poor-fruit-quality", "increased-fruit-acidity", "poor-fruit-firmness",
   "delayed-flowering"]

/-- The "Whole Plant" symptom list from `SYMPTOM_CATEGORIES`. -/
def WHOLE_PLANT_SYMPTOMS : List String :=
  ["plant-wilting", "bottom-up-collapse", "stunted-growth"]

/-- `SYMPTOM_CATEGORIES` from data_loader.py in insertion order. -/
def SYMPTOM_CATEGORIES : List (String × List String) :=
  [("Leaves & Stems", LEAVES_STEMS_SYMPTOMS),
   ("Blossoms & Fruits", BLOSSOMS_FRUITS_SYMPTOMS),
   ("Whole Plant", WHOLE_PLANT_SYMPTOMS)]

/-- `load_symptom_list` from data_loader.py: concatenation of the category
lists in dictionary insertion order. -/
def load_symptom_list : List String :=
  (SYMPTOM_CATEGORIES.map Prod.snd).flatten

/-- `validate_symptom` from data_loader.py: membership in the closed
catalog. -/
def validate_symptom (symptom : String) : Bool :=
  load_symptom_list.contains symptom

/-! ### run_system.py — facts and the session controller

CLIPS facts are template instances with named slots; a slot holds a symbol
or a float.  `assert_string` appends the fact to working memory. -/

/-- A CLIPS slot value: a symbol or a float (modelled as `ℚ`). -/
inductive SlotVal where
  | sym : String → SlotVal
  | num : ℚ → SlotVal
deriving DecidableEq

/-- A CLIPS template fact: the template name plus its named slots. -/
structure Fact where
  template : String
  slots : List (String × SlotVal)
deriving DecidableEq

/-- Slot lookup, as in `fact["name"]`. -/
def Fact.get (f : Fact) (k : String) : Option SlotVal :=
  (f.slots.find? (fun s => s.1 == k)).map Prod.snd

/-- `str(fact[k])` — the empty string when the slot is absent or numeric. -/
def Fact.getStr (f : Fact) (k : String) : String :=
  match f.get k with
  | some (SlotVal.sym s) => s
  | _ => ""

/-- `float(fact[k])` — `0` when the slot is absent or symbolic. -/
def Fact.getNum (f : Fact) (k : String) : ℚ :=
  match f.get k with
  | some (SlotVal.num q) => q
  | _ => 0

/-- A caller-supplied symptom descriptor `{name?, severity?, cf?}`
(`symptom.get(key, default)` reads the optional entries). -/
structure SymptomInput where
  name : Option String
  severity : Option String
  cf : Option ℚ
deriving DecidableEq

/-- The engine state of `TomatoExpertSystem`: the CLIPS working memory and
the `loaded` flag. -/
structure EngineState where
  facts : List Fact
  loaded : Bool
deriving DecidableEq

/-- `reset` from run_system.py: `env.reset()` clears working memory. -/
def resetEnv (s : EngineState) : EngineState :=
  { s with facts := [] }

/-- `load_rules` from run_system.py: loads the fixed `.clp` rule files
(held outside the state in this embedding, see `Rule`) and sets the
`loaded` flag. -/
def load_rules (s : EngineState) : EngineState :=
  { s with loaded := true }

/-- `assert_growth_stage` from run_system.py:
`(growth-stage (name <stage>))`. -/
def assert_growth_stage (facts : List Fact) (stage : String) : List Fact :=
  facts ++ [{ template := "growth-stage",
              slots := [("name", SlotVal.sym stage)] }]

/-- The symptom fact asserted for one descriptor, run_system.py lines
102-108: `(symptom (name <name|unknown>) (severity <severity|moderate>)
(cf <cf|1.0>))` — no validation and no clamping of the supplied cf. -/
def mkSymptomFact (s : SymptomInput) : Fact :=
  { template := "symptom",
    slots := [("name", SlotVal.sym (s.name.getD "unknown")),
              ("severity", SlotVal.sym (s.severity.getD "moderate")),
              ("cf", SlotVal.num (s.cf.getD 1))] }

/-- `assert_symptoms` from run_system.py: asserts one symptom fact per
descriptor, in order. -/
def assert_symptoms (facts : List Fact) (symptoms : List SymptomInput) :
    List Fact :=
  symptoms.foldl (fun env s => env ++ [mkSymptomFact s]) facts

/-- Modelled from the spec: a rule activation on the CLIPS agenda.  The
`.clp` rule files of this repository are not under src/; per spec §4.4 an
activation carries the rule's priority (salience), the recency of its
most-recently-asserted matched fact, the rule's declaration order, and the
single fact its action asserts. -/
structure Activation where
  ruleName : String
  priority : ℤ
  recency : ℕ
  declOrder : ℕ
  newFact : Fact

/-- Modelled from the spec: a rule of the knowledge base, reduced to the
activations it contributes on a given working memory (spec §4.4 Matching). -/
structure Rule where
  activations : List Fact → List Activation

/-- Modelled from the spec: all current activations, rules in declaration
order. -/
def activationsOf (kb : List Rule) (wm : List Fact) : List Activation :=
  (kb.map (fun r => r.activations wm)).flatten

/-- Modelled from the spec: activation `a` beats `b` under the conflict
resolution of spec §4.4 — higher priority, then higher recency, then
earlier declaration order. -/
def betterAct (a b : Activation) : Bool :=
  decide (b.priority < a.priority) ||
  (decide (b.priority = a.priority) && decide (b.recency < a.recency)) ||
  (decide (b.priority = a.priority) && decide (b.recency = a.recency) &&
    decide (a.declOrder < b.declOrder))

/-- Modelled from the spec: the activation that fires next — the
first-seen maximum of the agenda under `betterAct`, `none` on an empty
agenda (quiescence). -/
def selectActivation (acts : List Activation) : Option Activation :=
  match acts with
  | [] => none
  | a :: rest => some (rest.foldl (fun best x => if betterAct x best then x else best) a)

/-- Modelled from the spec: the firing-count safety bound of spec §4.4
("a few hundred"); the `while True` loop of `run_inference` in
run_system.py is embedded with this fuel. -/
def FIRING_LIMIT : ℕ := 1000

/-- `run_inference` from run_system.py, with the agenda selection modelled
from the spec: fire the selected activation, record its rule name, repeat
until quiescence. -/
def run_inference_loop (kb : List Rule) :
    ℕ → List Fact → List String → List Fact × List String
  | 0, wm, fired => (wm, fired.reverse)
  | fuel+1, wm, fired =>
    match selectActivation (activationsOf kb wm) with
    | none => (wm, fired.reverse)
    | some a => run_inference_loop kb fuel (wm ++ [a.newFact])
        (a.ruleName :: fired)

/-- `run_inference` from run_system.py: the stepwise loop from the current
working memory, returning the final memory and the ordered fired-rule
trace. -/
def run_inference (kb : List Rule) (wm : List Fact) :
    List Fact × List String :=
  run_inference_loop kb FIRING_LIMIT wm []

/-- One entry of `extract_results`' result lists (`name`, `cf`, and the
`explanation` key when the source branch stores one). -/
structure DiagEntry where
  name : String
  cf : ℚ
  explanation : Option String
deriving DecidableEq

/-- One `adjusted-nutrient-cf` record in `extract_results`. -/
structure Adjustment where
  nutrient : String
  original_cf : ℚ
  adjusted_cf : ℚ
  disease : String
  impact_factor : ℚ
deriving DecidableEq

/-- The result dictionary of `run_diagnosis`. -/
structure DiagResult where
  disease : Option DiagEntry
  nutrient : Option DiagEntry
  all_diseases : List DiagEntry
  all_nutrients : List DiagEntry
  adjustments : List Adjustment
  phase : Option String
  rules_fired : ℕ
  rules_triggered : List String
deriving DecidableEq

/-- The initial result dictionary of `extract_results`. -/
def emptyResults : DiagResult :=
  { disease := none, nutrient := none, all_diseases := [],
    all_nutrients := [], adjustments := [], phase := none,
    rules_fired := 0, rules_triggered := [] }

/-- One iteration of the fact loop in `extract_results`
(run_system.py lines 161-215). -/
def extract_step (r : DiagResult) (f : Fact) : DiagResult :=
  if f.template = "final-disease" then
    { r with disease := some ⟨f.getStr "name", f.getNum "cf",
        some (f.getStr "explanation")⟩ }
  else if f.template = "final-nutrient" then
    { r with nutrient := some ⟨f.getStr "name", f.getNum "cf",
        some (f.getStr "explanation")⟩ }
  else if f.template = "disease" then
    { r with all_diseases := r.all_diseases ++ [⟨f.getStr "name",
        f.getNum "cf", some (f.getStr "explanation")⟩] }
  else if f.template = "nutrient" then
    { r with all_nutrients := r.all_nutrients ++ [⟨f.getStr "name",
        f.getNum "cf", none⟩] }
  else if f.template = "nutrient-deficiency" then
    { r with all_nutrients := r.all_nutrients ++ [⟨f.getStr "name",
        f.getNum "cf", some (f.getStr "explanation")⟩] }
  else if f.template = "nutrient-final" then
    { r with nutrient := some ⟨f.getStr "name", f.getNum "cf", none⟩ }
  else if f.template = "adjusted-nutrient-cf" then
    { r with adjustments := r.adjustments ++ [⟨f.getStr "nutrient-name",
        f.getNum "original-cf", f.getNum "adjusted-cf",
        f.getStr "applied-disease", f.getNum "impact-factor"⟩] }
  else if f.template = "phase" then
    { r with phase := some (f.getStr "name") }
  else r

/-- The descending-by-CF relation of the two `sort(..., reverse=True)`
calls at the end of `extract_results`. -/
def entryDesc (p q : DiagEntry) : Prop := q.cf ≤ p.cf

instance : DecidableRel entryDesc :=
  fun p q => inferInstanceAs (Decidable (q.cf ≤ p.cf))

/-- `extract_results` from run_system.py: fold the working memory into the
result dictionary, then stably sort the candidate lists by CF descending. -/
def extract_results (facts : List Fact) : DiagResult :=
  let r := facts.foldl extract_step emptyResults
  { r with all_diseases := List.insertionSort entryDesc r.all_diseases,
           all_nutrients := List.insertionSort entryDesc r.all_nutrients }

/-- `run_diagnosis` from run_system.py: reset, load rules, reset again,
assert the growth-stage context fact, assert the symptom facts, run the
inference loop, and extract the results together with the fired-rule
trace. -/
def run_diagnosis (kb : List Rule) (s : EngineState)
    (symptoms : List SymptomInput) (growth_stage : String) :
    EngineState × DiagResult :=
  let s1 := resetEnv s
  let s2 := load_rules s1
  let s3 := resetEnv s2
  let f1 := assert_growth_stage s3.facts growth_stage
  let f2 := assert_symptoms f1 symptoms
  let out := run_inference kb f2
  let results := extract_results out.1
  ({ facts := out.1, loaded := s3.loaded },
   { results with rules_fired := out.2.length, rules_triggered := out.2 })

/-! #### Working-memory lemmas -/

theorem mem_assert_symptoms_of_mem :
    ∀ (symptoms : List SymptomInput) (facts : List Fact) (f : Fact),
      f ∈ facts → f ∈ assert_symptoms facts symptoms
  | [], _, _, hf => hf
  | s0 :: rest, facts, f, hf => by
      show f ∈ assert_symptoms (facts ++ [mkSymptomFact s0]) rest
      exact mem_assert_symptoms_of_mem rest _ f (List.mem_append_left _ hf)

theorem mkSymptomFact_mem_assert_symptoms :
    ∀ (symptoms : List SymptomInput) (facts : List Fact) (inp : SymptomInput),
      inp ∈ symptoms → mkSymptomFact inp ∈ assert_symptoms facts symptoms
  | [], _, _, h => absurd h (List.not_mem_nil _)
  | s0 :: rest, facts, inp, h => by
      rcases List.mem_cons.mp h with rfl | h'
      · show mkSymptomFact inp ∈
          assert_symptoms (facts ++ [mkSymptomFact inp]) rest
        exact mem_assert_symptoms_of_mem rest _ _
          (List.mem_append_right _ (List.mem_singleton.mpr rfl))
      · show mkSymptomFact inp ∈
          assert_symptoms (facts ++ [mkSymptomFact s0]) rest
        exact mkSymptomFact_mem_assert_symptoms rest _ inp h'

theorem mem_assert_symptoms_cases :
    ∀ (symptoms : List SymptomInput) (facts : List Fact) (f : Fact),
      f ∈ assert_symptoms facts symptoms →
        f ∈ facts ∨ ∃ i ∈ symptoms, f = mkSymptomFact i
  | [], _, _, hf => Or.inl hf
  | s0 :: rest, facts, f, hf => by
      rcases mem_assert_symptoms_cases rest (facts ++ [mkSymptomFact s0]) f hf
        with hmem | ⟨i, hi, rfl⟩
      · rcases List.mem_append.mp hmem with h | h
        · exact Or.inl h
        · exact Or.inr ⟨s0, List.mem_cons_self _ _, List.mem_singleton.mp h⟩
      · exact Or.inr ⟨i, List.mem_cons.mpr (Or.inr hi), rfl⟩

theorem foldl_pick_mem (g : Activation → Activation → Activation)
    (hg : ∀ b x, g b x = b ∨ g b x = x) :
    ∀ (l : List Activation) (a : Activation), l.foldl g a ∈ a :: l := by
  intro l
  induction l with
  | nil => intro a; exact List.mem_cons_self _ _
  | cons x xs ih =>
      intro a
      rw [List.foldl_cons]
      rcases List.mem_cons.mp (ih (g a x)) with h1 | h1
      · rw [h1]
        rcases hg a x with h2 | h2 <;> rw [h2]
        · exact List.mem_cons_self _ _
        · exact List.mem_cons.mpr (Or.inr (List.mem_cons_self _ _))
      · exact List.mem_cons.mpr (Or.inr (List.mem_cons.mpr (Or.inr h1)))

theorem selectActivation_mem {acts : List Activation} {a : Activation}
    (h : selectActivation acts = some a) : a ∈ acts := by
  cases acts with
  | nil => exact absurd h (by simp [selectActivation])
  | cons x xs =>
      have hx : xs.foldl (fun best y => if betterAct y best then y else best) x
          = a := Option.some.inj h
      have hmem := foldl_pick_mem
        (fun best y => if betterAct y best then y else best)
        (fun b y => by
          show (if betterAct y b then y else b) = b ∨
            (if betterAct y b then y else b) = y
          by_cases hb : betterAct y b
          · rw [if_pos hb]; exact Or.inr rfl
          · rw [if_neg hb]; exact Or.inl rfl) xs x
      rw [hx] at hmem
      exact hmem

theorem run_inference_loop_mono (kb : List Rule) :
    ∀ (fuel : ℕ) (wm : List Fact) (fired : List String) (f : Fact),
      f ∈ wm → f ∈ (run_inference_loop kb fuel wm fired).1
  | 0, _, _, _, hf => hf
  | fuel+1, wm, fired, f, hf => by
      cases h : selectActivation (activationsOf kb wm) with
      | none => simpa [run_inference_loop, h] using hf
      | some a =>
          have hf' : f ∈ wm ++ [a.newFact] := List.mem_append_left _ hf
          simpa [run_inference_loop, h] using
            run_inference_loop_mono kb fuel (wm ++ [a.newFact])
              (a.ruleName :: fired) f hf'

theorem run_inference_loop_preserves (kb : List Rule) (P : Fact → Prop)
    (hkb : ∀ wm a, a ∈ activationsOf kb wm → P a.newFact) :
    ∀ (fuel : ℕ) (wm : List Fact) (fired : List String),
      (∀ f ∈ wm, P f) → ∀ f ∈ (run_inference_loop kb fuel wm fired).1, P f
  | 0, _, _, hwm => hwm
  | fuel+1, wm, fired, hwm => by
      intro f hf
      cases h : selectActivation (activationsOf kb wm) with
      | none =>
          simp only [run_inference_loop, h] at hf
          exact hwm f hf
      | some a =>
          simp only [run_inference_loop, h] at hf
          refine run_inference_loop_preserves kb P hkb fuel _
            (a.ruleName :: fired) ?_ f hf
          intro g hg
          rcases List.mem_append.mp hg with hg | hg
          · exact hwm g hg
          · rw [List.mem_singleton.mp hg]
            exact hkb wm a (selectActivation_mem h)

/-- A fact's `cf` slot, when present and numeric, lies in `[-1, 1]`. -/
def cfInRange (f : Fact) : Prop :=
  ∀ q : ℚ, f.get "cf" = some (SlotVal.num q) → -1 ≤ q ∧ q ≤ 1

theorem growthFact_cfInRange (stage : String) :
    cfInRange (⟨"growth-stage", [("name", SlotVal.sym stage)]⟩ : Fact) := by
  intro q hq
  have hnone : (Fact.get
      ⟨"growth-stage", [("name", SlotVal.sym stage)]⟩ "cf") = none := rfl
  rw [hnone] at hq
  exact Option.noConfusion hq

theorem mkSymptomFact_get_cf (i : SymptomInput) :
    (mkSymptomFact i).get "cf" = some (SlotVal.num (i.cf.getD 1)) := rfl

theorem mkSymptomFact_cfInRange (i : SymptomInput)
    (hi : ∀ q : ℚ, i.cf = some q → -1 ≤ q ∧ q ≤ 1) :
    cfInRange (mkSymptomFact i) := by
  intro q hq
  rw [mkSymptomFact_get_cf] at hq
  have hq' : i.cf.getD 1 = q := SlotVal.num.inj (Option.some.inj hq)
  cases hc : i.cf with
  | none =>
      rw [hc] at hq'
      simp only [Option.getD] at hq'
      rw [← hq']
      norm_num
  | some v =>
      rw [hc] at hq'
      simp only [Option.getD] at hq'
      rw [← hq']
      exact hi v hc

/-! #### The session-controller claims -/

/-- C9: for a fixed symptom sequence and a fixed growth-stage context, any
two runs of `run_diagnosis` — from any two prior engine states — yield the
same result dictionary, including the same ordered fired-rule trace: the
double reset clears working memory and the modelled inference is a function
of the asserted facts alone. -/
theorem run_diagnosis_deterministic (kb : List Rule) (s1 s2 : EngineState)
    (symptoms : List SymptomInput) (growth_stage : String) :
    (run_diagnosis kb s1 symptoms growth_stage).2 =
      (run_diagnosis kb s2 symptoms growth_stage).2 := rfl

/-- Counterexample for C2: `run_diagnosis` called with a symptom whose name
is outside the closed catalog (`validate_symptom` rejects it) and whose cf
is `5 ∉ [0,1]` raises nothing and asserts both the growth-stage fact and
the invalid symptom fact — the session does not "assert nothing". -/
theorem run_diagnosis_no_validation_cex :
    validate_symptom "made-up-symptom" = false ∧
    (run_diagnosis [] ⟨[], false⟩
        [⟨some "made-up-symptom", none, some 5⟩] "vegetative").1.facts =
      [⟨"growth-stage", [("name", SlotVal.sym "vegetative")]⟩,
       ⟨"symptom", [("name", SlotVal.sym "made-up-symptom"),
                    ("severity", SlotVal.sym "moderate"),
                    ("cf", SlotVal.num 5)]⟩] :=
  ⟨rfl, rfl⟩

/-- C2 (amended): `run_diagnosis` performs no input validation at all —
every caller-supplied symptom descriptor, whether or not its name is in the
catalog and whatever its cf, is asserted into working memory as a symptom
fact (`validate_symptom` exists in data_loader.py but is never called on
this path). -/
theorem run_diagnosis_asserts_unvalidated (kb : List Rule) (s : EngineState)
    (symptoms : List SymptomInput) (stage : String) (inp : SymptomInput)
    (hmem : inp ∈ symptoms) :
    mkSymptomFact inp ∈ (run_diagnosis kb s symptoms stage).1.facts := by
  show mkSymptomFact inp ∈
    (run_inference kb
      (assert_symptoms (assert_growth_stage [] stage) symptoms)).1
  exact run_inference_loop_mono kb FIRING_LIMIT _ [] _
    (mkSymptomFact_mem_assert_symptoms symptoms _ inp hmem)

/-- Witness for C2 (amended): a single out-of-catalog symptom with cf `5`
is asserted. -/
theorem run_diagnosis_asserts_unvalidated_witness :
    mkSymptomFact ⟨some "made-up-symptom", none, some 5⟩ ∈
      (run_diagnosis [] ⟨[], false⟩
        [⟨some "made-up-symptom", none, some 5⟩] "vegetative").1.facts :=
  run_diagnosis_asserts_unvalidated [] ⟨[], false⟩ _ "vegetative" _
    (List.mem_singleton.mpr rfl)

/-- Counterexample for C3: a caller-supplied cf of `5` is asserted
unclamped — the symptom fact present in working memory after
`run_diagnosis` carries cf `= 5 ∉ [-1, 1]`. -/
theorem run_diagnosis_unclamped_cf_cex :
    (mkSymptomFact ⟨some "leaf-drop", none, some 5⟩).get "cf" =
      some (SlotVal.num 5) ∧
    ¬((5 : ℚ) ≤ 1) ∧
    mkSymptomFact ⟨some "leaf-drop", none, some 5⟩ ∈
      (run_diagnosis [] ⟨[], false⟩
        [⟨some "leaf-drop", none, some 5⟩] "vegetative").1.facts := by
  refine ⟨rfl, by norm_num, ?_⟩
  show mkSymptomFact ⟨some "leaf-drop", none, some 5⟩ ∈
    [(⟨"growth-stage", [("name", SlotVal.sym "vegetative")]⟩ : Fact),
     mkSymptomFact ⟨some "leaf-drop", none, some 5⟩]
  exact List.mem_cons.mpr (Or.inr (List.mem_cons_self _ _))

/-- C3 (amended): provided every caller-supplied cf lies in `[-1, 1]` and
every rule conclusion of the (spec-modelled) rule base carries an in-range
cf, every fact in working memory at the end of a `run_diagnosis` session
has its cf attribute in `[-1, 1]`; the controller itself never clamps, so
the bound on symptom facts holds only by courtesy of the caller. -/
theorem run_diagnosis_cf_bounds (kb : List Rule) (s : EngineState)
    (symptoms : List SymptomInput) (stage : String)
    (hin : ∀ i ∈ symptoms, ∀ q : ℚ, i.cf = some q → -1 ≤ q ∧ q ≤ 1)
    (hkb : ∀ wm a, a ∈ activationsOf kb wm → cfInRange a.newFact) :
    ∀ f ∈ (run_diagnosis kb s symptoms stage).1.facts, cfInRange f := by
  show ∀ f ∈ (run_inference kb
      (assert_symptoms (assert_growth_stage [] stage) symptoms)).1, cfInRange f
  refine run_inference_loop_preserves kb cfInRange hkb FIRING_LIMIT _ [] ?_
  intro f hf
  rcases mem_assert_symptoms_cases symptoms _ f hf with hmem | ⟨i, hi, rfl⟩
  · have hf' : f = (⟨"growth-stage",
        [("name", SlotVal.sym stage)]⟩ : Fact) :=
      List.mem_singleton.mp (by simpa [assert_growth_stage] using hmem)
    rw [hf']
    exact growthFact_cfInRange stage
  · exact mkSymptomFact_cfInRange i (hin i hi)

/-- Witness for C3 (amended): one valid symptom with cf `1`; the conclusion
instantiated at its symptom fact and `q = 1`. -/
theorem run_diagnosis_cf_bounds_witness : -1 ≤ (1 : ℚ) ∧ (1 : ℚ) ≤ 1 :=
  run_diagnosis_cf_bounds [] ⟨[], false⟩
    [⟨some "leaf-drop", none, some 1⟩] "vegetative"
    (by
      intro i hi q hq
      rw [List.mem_singleton.mp hi] at hq
      have h1 : (1 : ℚ) = q := Option.some.inj hq
      rw [← h1]
      norm_num)
    (fun wm a ha => absurd ha (by simp [activationsOf]))
    (mkSymptomFact ⟨some "leaf-drop", none, some 1⟩)
    (by
      show mkSymptomFact ⟨some "leaf-drop", none, some 1⟩ ∈
        [(⟨"growth-stage", [("name", SlotVal.sym "vegetative")]⟩ : Fact),
         mkSymptomFact ⟨some "leaf-drop", none, some 1⟩]
      exact List.mem_cons.mpr (Or.inr (List.mem_cons_self _ _)))
    1 rfl

end TomatoES
